import Mathlib

/-!
# Verification of the inbound-CRM booking manager (`src/app.py`)

Shallow embedding of the core logic of the Streamlit booking application:
the availability engine (`is_time_available`, `get_available_slots`), the
customer search (`find_customer`), PO-number generation
(`generate_po_number`), and the booking-lifecycle handlers (submit of a
new booking, submit of a rebook, cancel confirmation), together with
theorems checking the natural-language specification against this
embedding.

Times of day are modelled as minutes (`Int`); a calendar event carries
optional start/end instants (`none` models a missing `dateTime` field,
e.g. an all-day event). External effects (calendar insert/delete, sheet
append/update, user-facing messages) are recorded in an explicit trace.
-/

namespace CRM

/-- A calendar event as seen by `is_time_available`: the `start` and `end`
mappings may or may not carry a `dateTime`.  Instants are minutes. -/
structure CalEvent where
  startDT : Option Int
  endDT : Option Int
  deriving DecidableEq, Repr

/-- Translation of `is_time_available(date, start_time)` from `src/app.py` (lines 63-76),
with the event list of the date passed explicitly (the code fetches it via
`get_calendar_events(date)`).  `start` is the candidate start in minutes;
the window is `[start, start+240)`.  An event lacking a `dateTime` start
or end is skipped; the slot is unavailable iff some event overlaps under
`not (end_dt <= estart or start_dt >= eend)`. -/
def is_time_available (events : List CalEvent) (start : Int) : Bool :=
  let end_dt := start + 240
  events.all fun event =>
    match event.startDT, event.endDT with
    | some estart, some eend => decide (end_dt ≤ estart) || decide (start ≥ eend)
    | _, _ => true

/-- Translation of `get_available_slots(date)` from `src/app.py` (lines 78-84): candidate
start hours 7..14, each kept iff `is_time_available`. -/
def get_available_slots (events : List CalEvent) : List Int :=
  ((List.range 8).map fun i => ((7 + i : Nat) : Int) * 60).filter
    fun start => is_time_available events start

/-! ## Record store and customer rows

The record store is the sheet's data rows (header row excluded): a list of
rows, each a list of 11 cell strings in the column order
`PO No, Name, Phone, From Address, To Address, Date, Time, End Time,
Service, Notes, Event ID`.  Sheet row number `idx` (1-based, header at
row 1) corresponds to data index `idx - 2`. -/

/-- A booking record as returned by `sheet.get_all_records()`: a mapping
keyed by the 11 column headers. -/
structure Customer where
  poNo : String
  custName : String
  custPhone : String
  fromAddress : String
  toAddress : String
  dateCol : String
  timeCol : String
  endTimeCol : String
  serviceCol : String
  notesCol : String
  eventId : String
  deriving DecidableEq, Repr

/-- Read a record mapping off a row of 11 cells (missing cells read as
empty, as a short row yields empty fields). -/
def customerOfRow (r : List String) : Customer :=
  ⟨r.getD 0 "", r.getD 1 "", r.getD 2 "", r.getD 3 "", r.getD 4 "",
   r.getD 5 "", r.getD 6 "", r.getD 7 "", r.getD 8 "", r.getD 9 "", r.getD 10 ""⟩

/-! ## External effects

Calls to the calendar store and the record store, and user-facing
messages, are recorded in an explicit trace.  The calendar store's
behaviour (whether a delete succeeds, what an insert returns) is an
environment parameter. -/

/-- One observable effect of a handler. -/
inductive Eff where
  /-- The call `calendar_service.events().delete(...)` was attempted on this id. -/
  | calDelete (eventId : String)
  /-- The call `calendar_service.events().insert(...)` succeeded, returning `eventId`. -/
  | calInsert (summary : String) (eventId : String)
  /-- The call `calendar_service.events().insert(...)` raised. -/
  | calInsertFail (summary : String)
  /-- The call `sheet.append_row(values)`. -/
  | sheetAppend (values : List String)
  /-- The call `sheet.update` on cells A..K of row `rowIndex`. -/
  | sheetUpdate (rowIndex : Nat) (values : List String)
  /-- The call `st.warning(msg)`. -/
  | warnMsg (msg : String)
  /-- The call `st.error(msg)`. -/
  | errorMsg (msg : String)
  /-- The call `st.success(msg)`. -/
  | successMsg (msg : String)
  deriving DecidableEq, Repr

/-- Behaviour of the calendar store during one handler run:
whether deleting a given event id succeeds, and the id returned by an
insert (`none` models the insert call raising). -/
structure CalEnv where
  deleteOk : String → Bool
  insertResult : Option String

/-- Translation of `create_calendar_event` (lines 86-93): builds the event body and
inserts it, returning the new event's id; a failing insert raises, which
propagates to the caller (`none`). -/
def create_calendar_event (env : CalEnv)
    (po name _phone _from_addr _to_addr _dateS _startS _endS : String)
    (serviceCol _notes : String) : List Eff × Option String :=
  let summary := po ++ " – " ++ name ++ " – " ++ serviceCol
  match env.insertResult with
  | some eid => ([Eff.calInsert summary eid], some eid)
  | none => ([Eff.calInsertFail summary], none)

/-- Translation of `update_calendar_event` (lines 95-100): best-effort delete of the old
event (`st.warning` on failure), then `create_calendar_event` for the
replacement. -/
def update_calendar_event (env : CalEnv) (event_id : String)
    (po name phone from_addr to_addr dateS startS endS : String)
    (serviceCol notes : String) : List Eff × Option String :=
  let del :=
    if env.deleteOk event_id then [Eff.calDelete event_id]
    else [Eff.calDelete event_id,
          Eff.warnMsg "Could not delete old event"]
  let ins := create_calendar_event env po name phone from_addr to_addr dateS
    startS endS serviceCol notes
  (del ++ ins.1, ins.2)

/-- Translation of `delete_calendar_event` (lines 102-106): attempts the delete;
on failure shows `st.error` and returns normally. -/
def delete_calendar_event (env : CalEnv) (event_id : String) : List Eff :=
  if env.deleteOk event_id then [Eff.calDelete event_id]
  else [Eff.calDelete event_id, Eff.errorMsg "Delete failed"]

/-- Translation of `append_booking_to_sheet` (lines 108-109). -/
def append_booking_to_sheet (sheet : List (List String))
    (values : List String) : List (List String) :=
  sheet ++ [values]

/-- Translation of `update_booking_in_sheet` (lines 111-112): overwrite columns A-K of
sheet row `row_index`; data index is `row_index - 2` (header at row 1,
first data row at sheet row 2). -/
def update_booking_in_sheet (sheet : List (List String)) (row_index : Nat)
    (values : List String) : List (List String) :=
  sheet.set (row_index - 2) values

/-! ## Lifecycle handlers -/

/-- Result of a submit handler: the record store, the PO counter, the
effect trace, and whether an exception propagated out of the handler. -/
structure SubmitOut where
  sheet : List (List String)
  poCounter : Nat
  trace : List Eff
  raised : Bool
  deriving Repr

/-- The `Submit Booking` handler, `new_booking` branch (lines 258-262):
insert the calendar event (a raise aborts the handler), append the row,
then advance the PO counter. -/
def submitNew (env : CalEnv) (sheet : List (List String)) (po_counter : Nat)
    (po name phone from_addr to_addr dateS startS endS : String)
    (serviceCol notes : String) : SubmitOut :=
  match create_calendar_event env po name phone from_addr to_addr dateS
      startS endS serviceCol notes with
  | (tr, none) =>
      { sheet := sheet, poCounter := po_counter, trace := tr, raised := true }
  | (tr, some event_id) =>
      let values := [po, name, phone, from_addr, to_addr, dateS, startS, endS,
        serviceCol, notes, event_id]
      { sheet := append_booking_to_sheet sheet values,
        poCounter := po_counter + 1,
        trace := tr ++ [Eff.sheetAppend values,
          Eff.successMsg "Booking created."],
        raised := false }

/-- The `Submit Booking` handler, `rebook` branch (lines 263-266), with
the prefill of lines 215-225: `po` is the stored `PO No`, the old event id
is the stored `Event ID`, and the row at `idx` is overwritten in place. -/
def submitRebook (env : CalEnv) (sheet : List (List String))
    (po_counter : Nat) (idx : Nat) (cust : Customer)
    (name phone from_addr to_addr dateS startS endS : String)
    (serviceCol notes : String) : SubmitOut :=
  let po := cust.poNo
  match update_calendar_event env cust.eventId po name phone from_addr
      to_addr dateS startS endS serviceCol notes with
  | (tr, none) =>
      { sheet := sheet, poCounter := po_counter, trace := tr, raised := true }
  | (tr, some event_id) =>
      let values := [po, name, phone, from_addr, to_addr, dateS, startS, endS,
        serviceCol, notes, event_id]
      { sheet := update_booking_in_sheet sheet idx values,
        poCounter := po_counter,
        trace := tr ++ [Eff.sheetUpdate idx values,
          Eff.successMsg "Booking updated."],
        raised := false }

/-- The cancel confirmation branch (lines 192-199): if the stored
`Event ID` is truthy (non-empty), attempt the calendar delete; then blank
the 11 columns of sheet row `idx` in place. -/
def cancelConfirm (env : CalEnv) (sheet : List (List String)) (idx : Nat)
    (cust : Customer) : List (List String) × List Eff :=
  let tr := if cust.eventId ≠ "" then delete_calendar_event env cust.eventId
    else []
  (update_booking_in_sheet sheet idx (List.replicate 11 ""),
   tr ++ [Eff.successMsg "Cancelled."])

/-! ## Customer search -/

/-- Python `needle in hay` on strings (substring containment) over char
lists: some suffix of `hay` starts with `needle`. -/
def listContainsSub (needle : List Char) : List Char → Bool
  | [] => needle.isPrefixOf ([] : List Char)
  | c :: rest => needle.isPrefixOf (c :: rest) || listContainsSub needle rest

/-- Python `s.lower()` (per-character lowercasing). -/
def pyLower (s : String) : String :=
  ⟨s.data.map Char.toLower⟩

/-- Python `needle in hay` on strings. -/
def pyContains (needle hay : String) : Bool :=
  listContainsSub needle.data hay.data

/-- Python `s[-9:]`: the last 9 characters, or all of `s` if shorter. -/
def pyLast9 (s : String) : String :=
  s.drop (s.length - 9)

/-- The per-row match test of `find_customer` (lines 117-120), as one
predicate: the non-empty query name is a case-insensitive substring of the
stored Name, or the non-empty query phone agrees with the stored Phone on
the last 9 characters. -/
def matchesQuery (name phone : String) (row : Customer) : Bool :=
  (!(name == "") && pyContains (pyLower name) (pyLower row.custName))
    || (!(phone == "") && (pyLast9 row.custPhone == pyLast9 phone))

/-- The scan of `find_customer`, carrying the 1-based sheet position `i`
(first data row is 2, per `enumerate(records, start=2)`). -/
def findAux (name phone : String) : Nat → List Customer → Option (Nat × Customer)
  | _, [] => none
  | i, row :: rest =>
    if name ≠ "" ∧ pyContains (pyLower name) (pyLower row.custName) then
      some (i, row)
    else if phone ≠ "" ∧ pyLast9 row.custPhone == pyLast9 phone then
      some (i, row)
    else findAux name phone (i + 1) rest

/-- Translation of `find_customer` (lines 114-121): first matching record in store order,
with its sheet position; `(None, None)` is modelled by `none`. -/
def find_customer (records : List Customer) (name phone : String) :
    Option (Nat × Customer) :=
  findAux name phone 2 records

/-! ## PO numbers

`generate_po_number` (lines 47-48) is
`f"E{str(st.session_state.po_counter).zfill(6)}"`.  Python's `str` on a
non-negative integer is its decimal representation; `zfill(6)` left-pads
with `'0'` to at least 6 characters. -/

/-- Little-endian decimal digits, with enough fuel (structural recursion
so that concrete values compute by `decide`). -/
def digitsFuel : Nat → Nat → List Nat
  | 0, _ => []
  | fuel + 1, n => if n = 0 then [] else n % 10 :: digitsFuel fuel (n / 10)

/-- Little-endian decimal digits of `n` (empty for 0). -/
def dig (n : Nat) : List Nat :=
  digitsFuel n n

/-- Python `str(n)` for a natural number: big-endian decimal digits,
`"0"` for 0. -/
def pyStr (n : Nat) : String :=
  if n = 0 then "0" else ⟨(dig n).reverse.map Nat.digitChar⟩

/-- Python `s.zfill(w)`: left-pad with `'0'` to length at least `w`. -/
def zfill (s : String) (w : Nat) : String :=
  ⟨List.replicate (w - s.length) '0' ++ s.data⟩

/-- Translation of `generate_po_number` (lines 47-48), with the process counter passed
explicitly. -/
def generate_po_number (po_counter : Nat) : String :=
  "E" ++ zfill (pyStr po_counter) 6

/-! ## Process model for PO-number uniqueness

A process runs a sequence of create / cancel operations against the
session state seeded at startup (lines 38-39:
`po_counter = len(sheet.get_all_records()) + 1`).  The `assigned` field is
history bookkeeping: the PO numbers handed out by successful creations, in
order. -/

/-- Process-lifetime state: the record store, the PO counter, and the
history of assigned PO numbers. -/
structure Proc where
  sheet : List (List String)
  poCounter : Nat
  assigned : List String

/-- One user-level operation: submitting a new booking (with the calendar
environment of that moment), or confirming a cancellation. -/
inductive Op where
  | create (env : CalEnv)
      (name phone from_addr to_addr dateS startS endS : String)
      (serviceCol notes : String)
  | cancel (env : CalEnv) (idx : Nat) (cust : Customer)

/-- Run one operation: a create submits a new booking under the PO
`generate_po_number(po_counter)` (line 227) and records the PO on success
(the counter advances only then, line 261); a cancel runs the confirmation
branch and leaves the counter alone. -/
def stepOp (p : Proc) (op : Op) : Proc :=
  match op with
  | Op.create env name phone from_addr to_addr dateS startS endS svc notes =>
      let po := generate_po_number p.poCounter
      let out := submitNew env p.sheet p.poCounter po name phone from_addr
        to_addr dateS startS endS svc notes
      { sheet := out.sheet, poCounter := out.poCounter,
        assigned := if out.raised then p.assigned else po :: p.assigned }
  | Op.cancel env idx cust =>
      { p with sheet := (cancelConfirm env p.sheet idx cust).1 }

/-- Startup state (lines 38-39): counter = record count + 1, nothing
assigned yet in this process lifetime. -/
def initProc (sheet0 : List (List String)) : Proc :=
  { sheet := sheet0, poCounter := sheet0.length + 1, assigned := [] }

/-- Run a whole sequence of operations from startup. -/
def runOps (sheet0 : List (List String)) (ops : List Op) : Proc :=
  ops.foldl stepOp (initProc sheet0)

/-! ## Availability theorems -/

/-- Availability holds iff no event with both `dateTime` fields
overlaps the candidate window `[t, t+240)`. -/
theorem is_time_available_iff (events : List CalEvent) (t : Int) :
    is_time_available events t = true ↔
      ∀ e ∈ events, ∀ es ee, e.startDT = some es → e.endDT = some ee →
        t + 240 ≤ es ∨ t ≥ ee := by
  unfold is_time_available
  simp only [List.all_eq_true]
  constructor
  · intro h e he es ee hs hee
    have h2 := h e he
    rw [hs, hee] at h2
    simpa using h2
  · intro h e he
    rcases e with ⟨s, en⟩
    cases hs : s with
    | none => simp
    | some es =>
      cases hen : en with
      | none => simp
      | some ee =>
        have h2 := h ⟨s, en⟩ he es ee (by rw [hs]) (by rw [hen])
        simpa using h2

/-- Membership in `get_available_slots`: exactly the starts `60*h` for an
hour `h ∈ {7,...,14}` whose window overlaps no fully-timed event. -/
theorem mem_get_available_slots (events : List CalEvent) (t : Int) :
    t ∈ get_available_slots events ↔
      (∃ h : Nat, 7 ≤ h ∧ h ≤ 14 ∧ t = 60 * h) ∧
      ∀ e ∈ events, ∀ es ee, e.startDT = some es → e.endDT = some ee →
        t + 240 ≤ es ∨ t ≥ ee := by
  unfold get_available_slots
  rw [List.mem_filter]
  simp only [List.mem_map, List.mem_range]
  rw [← is_time_available_iff]
  constructor
  · rintro ⟨⟨i, hi, rfl⟩, hav⟩
    refine ⟨⟨7 + i, by omega, by omega, by push_cast; ring⟩, hav⟩
  · rintro ⟨⟨h, h7, h14, rfl⟩, hav⟩
    refine ⟨⟨h - 7, by omega, ?_⟩, hav⟩
    have : 7 + (h - 7) = h := by omega
    rw [this]
    ring

/-- C1: for every event list, `get_available_slots` returns exactly the
candidate start hours `h ∈ {7,...,14}` whose 4-hour window `[h:00, h+4:00)`
overlaps no event (half-open test); in particular a single event
`[10:00, 14:00)` leaves exactly `[14:00]` — a start equal to an event's
end is available. -/
theorem C1_available_slots_exact :
    (∀ (events : List CalEvent) (t : Int),
      t ∈ get_available_slots events ↔
        (∃ h : Nat, 7 ≤ h ∧ h ≤ 14 ∧ t = 60 * h) ∧
        ∀ e ∈ events, ∀ es ee, e.startDT = some es → e.endDT = some ee →
          t + 240 ≤ es ∨ t ≥ ee) ∧
    get_available_slots [⟨some 600, some 840⟩] = [840] := by
  refine ⟨mem_get_available_slots, by decide⟩

/-- Witness for C1 at a concrete input: from the computed membership of
`14:00` (840 minutes) on a day with one event `[10:00, 14:00)`, the
characterization yields the hour decomposition and non-overlap facts. -/
theorem C1_available_slots_exact_witness :
    (∃ h : Nat, 7 ≤ h ∧ h ≤ 14 ∧ (840 : Int) = 60 * h) ∧
    ∀ e ∈ [CalEvent.mk (some 600) (some 840)], ∀ es ee,
      e.startDT = some es → e.endDT = some ee →
        (840 : Int) + 240 ≤ es ∨ (840 : Int) ≥ ee :=
  (C1_available_slots_exact.1 [⟨some 600, some 840⟩] 840).mp (by decide)

/-- C2: with zero calendar events, `get_available_slots` returns exactly
the eight start times 07:00..14:00 (in minutes), in ascending order. -/
theorem C2_no_events_all_slots :
    get_available_slots [] = [420, 480, 540, 600, 660, 720, 780, 840] ∧
    (get_available_slots []).Sorted (· < ·) := by
  constructor
  · decide
  · decide

/-- C10: an event lacking a `dateTime` start or end (e.g. an all-day
event) never excludes a slot, so a date whose events all lack `dateTime`
fields yields all eight slots. -/
theorem C10_all_day_events_ignored (events : List CalEvent)
    (h : ∀ e ∈ events, e.startDT = none ∨ e.endDT = none) :
    get_available_slots events = [420, 480, 540, 600, 660, 720, 780, 840] := by
  have hall : ∀ t : Int, is_time_available events t = true := by
    intro t
    rw [is_time_available_iff]
    intro e he es ee hs hee
    rcases h e he with h1 | h1
    · rw [h1] at hs; cases hs
    · rw [h1] at hee; cases hee
  unfold get_available_slots
  rw [List.filter_eq_self.mpr (fun a _ => hall a)]
  decide

/-- Witness for C10: a day holding only an all-day event (no `dateTime`)
keeps all eight slots. -/
theorem C10_all_day_events_ignored_witness :
    get_available_slots [⟨none, some 840⟩, ⟨some 600, none⟩] =
      [420, 480, 540, 600, 660, 720, 780, 840] :=
  C10_all_day_events_ignored [⟨none, some 840⟩, ⟨some 600, none⟩] (by decide)

/-! ## Search theorems -/

/-- The Bool match predicate, spelled out as a disjunction of the two
criteria. -/
theorem matchesQuery_iff (name phone : String) (row : Customer) :
    matchesQuery name phone row = true ↔
      (name ≠ "" ∧ pyContains (pyLower name) (pyLower row.custName) = true) ∨
      (phone ≠ "" ∧ pyLast9 row.custPhone = pyLast9 phone) := by
  simp [matchesQuery]

/-- The scan examines one row with the same test as `matchesQuery`. -/
theorem findAux_cons (name phone : String) (i : Nat) (row : Customer)
    (rest : List Customer) :
    findAux name phone i (row :: rest) =
      if matchesQuery name phone row then some (i, row)
      else findAux name phone (i + 1) rest := by
  by_cases h1 : name ≠ "" ∧ pyContains (pyLower name) (pyLower row.custName) = true
  · rw [findAux, if_pos h1, if_pos ((matchesQuery_iff name phone row).mpr (Or.inl h1))]
  · by_cases h2 : phone ≠ "" ∧ (pyLast9 row.custPhone == pyLast9 phone) = true
    · rw [findAux, if_neg h1, if_pos h2,
        if_pos ((matchesQuery_iff name phone row).mpr
          (Or.inr ⟨h2.1, by simpa using h2.2⟩))]
    · rw [findAux, if_neg h1, if_neg h2, if_neg]
      rw [matchesQuery_iff]
      rintro (h | h)
      · exact h1 h
      · exact h2 ⟨h.1, by simpa using h.2⟩

/-- A `none` scan result means no row matches. -/
theorem findAux_eq_none_iff (name phone : String) :
    ∀ (i : Nat) (records : List Customer),
      findAux name phone i records = none ↔
        ∀ c ∈ records, matchesQuery name phone c = false := by
  intro i records
  induction records generalizing i with
  | nil => simp [findAux]
  | cons row rest ih =>
    rw [findAux_cons]
    by_cases hm : matchesQuery name phone row = true
    · simp [hm]
    · rw [if_neg hm, ih (i + 1)]
      constructor
      · intro hall c hc
        rcases List.mem_cons.mp hc with rfl | hc'
        · exact Bool.eq_false_iff.mpr hm
        · exact hall c hc'
      · intro hall c hc
        exact hall c (List.mem_cons_of_mem row hc)

/-- A `some` scan result is the first matching row, at offset `k` from
the start of the scan, reported at position `i + k`. -/
theorem findAux_eq_some (name phone : String) :
    ∀ (i : Nat) (records : List Customer) (j : Nat) (c : Customer),
      findAux name phone i records = some (j, c) →
        ∃ k, records[k]? = some c ∧ j = i + k ∧
          matchesQuery name phone c = true ∧
          ∀ m c', m < k → records[m]? = some c' →
            matchesQuery name phone c' = false := by
  intro i records
  induction records generalizing i with
  | nil => intro j c h; simp [findAux] at h
  | cons row rest ih =>
    intro j c h
    rw [findAux_cons] at h
    by_cases hm : matchesQuery name phone row = true
    · rw [if_pos hm] at h
      injection h with h'
      injection h' with h1 h2
      subst h1
      subst h2
      exact ⟨0, by simp, by omega, hm,
        fun m c' hlt _ => absurd hlt (Nat.not_lt_zero m)⟩
    · rw [if_neg hm] at h
      obtain ⟨k, hk, hj, hmc, hfirst⟩ := ih (i + 1) j c h
      refine ⟨k + 1, by simpa using hk, by omega, hmc, ?_⟩
      intro m c' hmk hget
      cases m with
      | zero =>
        obtain rfl : row = c' := by simpa using hget
        exact Bool.eq_false_iff.mpr hm
      | succ m' => exact hfirst m' c' (by omega) (by simpa using hget)

/-- C3: `find_customer` returns the first matching row in store order —
a row matches iff the non-empty query name is a case-insensitive substring
of the stored Name or the non-empty query phone's last 9 characters equal
the stored Phone's last 9 characters; the reported index is the row's
1-based sheet position counting the header (first data row is 2); with no
matching row (in particular with both query fields empty) the result is
the not-found signal `none`. -/
theorem C3_find_customer_first_match (records : List Customer)
    (name phone : String) :
    (find_customer records name phone = none ↔
      ∀ c ∈ records, matchesQuery name phone c = false) ∧
    (∀ j c, find_customer records name phone = some (j, c) →
      ∃ k, records[k]? = some c ∧ j = k + 2 ∧
        matchesQuery name phone c = true ∧
        ∀ m c', m < k → records[m]? = some c' →
          matchesQuery name phone c' = false) ∧
    (name = "" → phone = "" → find_customer records name phone = none) := by
  refine ⟨findAux_eq_none_iff name phone 2 records, ?_, ?_⟩
  · intro j c h
    obtain ⟨k, hk, hj, hmc, hfirst⟩ := findAux_eq_some name phone 2 records j c h
    exact ⟨k, hk, by omega, hmc, hfirst⟩
  · rintro rfl rfl
    unfold find_customer
    rw [findAux_eq_none_iff]
    intro c _
    simp [matchesQuery]

/-- Witness for C3 at a concrete store: searching `"li"` in a two-row
store whose second row is named `"Alice"` returns that row at sheet
position 3, and the characterization yields its store offset and the
failure of every earlier row. -/
theorem C3_find_customer_first_match_witness :
    ∃ k, [Customer.mk "E000001" "Bob" "0400999888" "" "" "" "" "" "" "" "ev1",
          Customer.mk "E000002" "Alice" "0400111222" "" "" "" "" "" "" "" "ev2"][k]? =
        some (Customer.mk "E000002" "Alice" "0400111222" "" "" "" "" "" "" "" "ev2") ∧
      3 = k + 2 ∧
      matchesQuery "li" ""
        (Customer.mk "E000002" "Alice" "0400111222" "" "" "" "" "" "" "" "ev2") = true ∧
      ∀ m c', m < k →
        [Customer.mk "E000001" "Bob" "0400999888" "" "" "" "" "" "" "" "ev1",
         Customer.mk "E000002" "Alice" "0400111222" "" "" "" "" "" "" "" "ev2"][m]? =
          some c' →
        matchesQuery "li" "" c' = false :=
  (C3_find_customer_first_match
      [⟨"E000001", "Bob", "0400999888", "", "", "", "", "", "", "", "ev1"⟩,
       ⟨"E000002", "Alice", "0400111222", "", "", "", "", "", "", "", "ev2"⟩]
      "li" "").2.1 3
    ⟨"E000002", "Alice", "0400111222", "", "", "", "", "", "", "", "ev2"⟩
    (by decide)

/-! ## Decimal representation lemmas -/

theorem digitsFuel_zero (f : Nat) : digitsFuel f 0 = [] := by
  cases f <;> simp [digitsFuel]

theorem digitsFuel_congr : ∀ (f g n : Nat), n ≤ f → n ≤ g →
    digitsFuel f n = digitsFuel g n := by
  intro f
  induction f with
  | zero =>
    intro g n hf _
    obtain rfl : n = 0 := Nat.le_zero.mp hf
    rw [digitsFuel_zero, digitsFuel_zero]
  | succ f ih =>
    intro g n hf hg
    by_cases hn : n = 0
    · subst hn; rw [digitsFuel_zero, digitsFuel_zero]
    · cases g with
      | zero => omega
      | succ g' =>
        have hdiv : n / 10 < n := Nat.div_lt_self (Nat.pos_of_ne_zero hn) (by omega)
        simp only [digitsFuel, if_neg hn]
        rw [ih g' (n / 10) (by omega) (by omega)]

theorem dig_zero : dig 0 = [] := rfl

theorem dig_eq (n : Nat) (hn : n ≠ 0) : dig n = n % 10 :: dig (n / 10) := by
  unfold dig
  cases n with
  | zero => exact absurd rfl hn
  | succ m =>
    simp only [digitsFuel, if_neg hn]
    congr 1
    have hlt : (m + 1) / 10 < m + 1 := Nat.div_lt_self (Nat.succ_pos m) (by norm_num)
    exact digitsFuel_congr m ((m + 1) / 10) ((m + 1) / 10) (by omega) le_rfl

/-- Little-endian value of a digit list. -/
def valLE : List Nat → Nat
  | [] => 0
  | d :: t => d + 10 * valLE t

theorem valLE_dig (n : Nat) : valLE (dig n) = n := by
  induction n using Nat.strong_induction_on with
  | _ n ih =>
    by_cases hn : n = 0
    · subst hn; rfl
    · rw [dig_eq n hn]
      show n % 10 + 10 * valLE (dig (n / 10)) = n
      rw [ih (n / 10) (Nat.div_lt_self (Nat.pos_of_ne_zero hn) (by omega))]
      exact Nat.mod_add_div n 10

theorem dig_lt_ten (n : Nat) : ∀ d ∈ dig n, d < 10 := by
  induction n using Nat.strong_induction_on with
  | _ n ih =>
    by_cases hn : n = 0
    · subst hn; simp [dig_zero]
    · rw [dig_eq n hn]
      intro d hd
      rcases List.mem_cons.mp hd with rfl | hd'
      · exact Nat.mod_lt n (by omega)
      · exact ih (n / 10) (Nat.div_lt_self (Nat.pos_of_ne_zero hn) (by omega)) d hd'

theorem dig_length_le (n : Nat) : ∀ k, n < 10 ^ k → (dig n).length ≤ k := by
  induction n using Nat.strong_induction_on with
  | _ n ih =>
    intro k hk
    by_cases hn : n = 0
    · subst hn; simp [dig_zero]
    · cases k with
      | zero => simp at hk; omega
      | succ k' =>
        rw [dig_eq n hn]
        simp only [List.length_cons]
        have hdivlt : n / 10 < 10 ^ k' := by
          rw [Nat.div_lt_iff_lt_mul (by omega)]
          calc n < 10 ^ (k' + 1) := hk
            _ = 10 ^ k' * 10 := by ring
        have := ih (n / 10) (Nat.div_lt_self (Nat.pos_of_ne_zero hn) (by omega))
          k' hdivlt
        omega

/-- Big-endian decimal digits of `n`, as written by Python `str`
(`[0]` for 0). -/
def pyDigitsBE (n : Nat) : List Nat :=
  if n = 0 then [0] else (dig n).reverse

/-- The 6-left-padded big-endian digit list underlying
`str(n).zfill(6)`. -/
def pad6 (n : Nat) : List Nat :=
  List.replicate (6 - (pyDigitsBE n).length) 0 ++ pyDigitsBE n

theorem pyStr_data (n : Nat) :
    (pyStr n).data = (pyDigitsBE n).map Nat.digitChar := by
  unfold pyStr pyDigitsBE
  split
  · rfl
  · rfl

theorem pyDigitsBE_lt_ten (n : Nat) : ∀ d ∈ pyDigitsBE n, d < 10 := by
  unfold pyDigitsBE
  split
  · simp
  · intro d hd
    exact dig_lt_ten n d (List.mem_reverse.mp hd)

theorem pad6_lt_ten (n : Nat) : ∀ d ∈ pad6 n, d < 10 := by
  intro d hd
  rcases List.mem_append.mp hd with hd' | hd'
  · have := List.eq_of_mem_replicate hd'
    omega
  · exact pyDigitsBE_lt_ten n d hd'

theorem pyDigitsBE_length_le (n : Nat) (hn : n ≤ 999999) :
    (pyDigitsBE n).length ≤ 6 := by
  unfold pyDigitsBE
  split
  · simp
  · rw [List.length_reverse]
    exact dig_length_le n 6 (by norm_num; omega)

theorem pad6_length (n : Nat) (hn : n ≤ 999999) : (pad6 n).length = 6 := by
  have h := pyDigitsBE_length_le n hn
  unfold pad6
  rw [List.length_append, List.length_replicate]
  omega

/-- Big-endian value of a digit list. -/
def valBE : List Nat → Nat
  | [] => 0
  | d :: t => d * 10 ^ t.length + valBE t

theorem valBE_append_singleton (l : List Nat) (d : Nat) :
    valBE (l ++ [d]) = 10 * valBE l + d := by
  induction l with
  | nil => simp [valBE]
  | cons e t ih =>
    rw [List.cons_append]
    show e * 10 ^ (t ++ [d]).length + valBE (t ++ [d]) = 10 * valBE (e :: t) + d
    rw [ih]
    simp only [List.length_append, List.length_cons, List.length_nil, valBE]
    ring

theorem valBE_reverse (l : List Nat) : valBE l.reverse = valLE l := by
  induction l with
  | nil => rfl
  | cons d t ih =>
    rw [List.reverse_cons, valBE_append_singleton, ih]
    show 10 * valLE t + d = d + 10 * valLE t
    ring

theorem valBE_replicate_zero (k : Nat) (l : List Nat) :
    valBE (List.replicate k 0 ++ l) = valBE l := by
  induction k with
  | zero => simp
  | succ k' ih =>
    rw [List.replicate_succ, List.cons_append]
    show 0 * 10 ^ _ + valBE (List.replicate k' 0 ++ l) = valBE l
    rw [ih]
    ring

theorem valBE_pyDigitsBE (n : Nat) : valBE (pyDigitsBE n) = n := by
  unfold pyDigitsBE
  split
  · rename_i h
    subst h
    rfl
  · rw [valBE_reverse, valLE_dig]

theorem valBE_pad6 (n : Nat) : valBE (pad6 n) = n := by
  rw [pad6, valBE_replicate_zero, valBE_pyDigitsBE]

theorem valBE_lt_pow (l : List Nat) (h : ∀ d ∈ l, d < 10) :
    valBE l < 10 ^ l.length := by
  induction l with
  | nil => simp [valBE]
  | cons d t ih =>
    have hd : d < 10 := h d (List.mem_cons_self d t)
    have ht := ih fun d' hd' => h d' (List.mem_cons_of_mem d hd')
    show d * 10 ^ t.length + valBE t < 10 ^ (d :: t).length
    have : 10 ^ (d :: t).length = 10 * 10 ^ t.length := by
      rw [List.length_cons]; ring
    rw [this]
    nlinarith [ht, hd, Nat.one_le_two_pow (n := 0)]

/-- The characters of `generate_po_number`: `'E'` then the padded digit
characters. -/
theorem generate_po_number_data (n : Nat) :
    (generate_po_number n).data = 'E' :: (pad6 n).map Nat.digitChar := by
  unfold generate_po_number zfill
  rw [String.data_append]
  show 'E' :: (List.replicate (6 - (pyStr n).length) '0' ++ (pyStr n).data) = _
  rw [pyStr_data]
  unfold pad6
  rw [List.map_append, List.map_replicate]
  have hlen : (pyStr n).length = (pyDigitsBE n).length := by
    show (pyStr n).data.length = _
    rw [pyStr_data, List.length_map]
  rw [hlen]
  rfl

theorem digitChar_inj_below : ∀ a, a < 10 → ∀ b, b < 10 →
    Nat.digitChar a = Nat.digitChar b → a = b := by decide

theorem digitChar_mono_below : ∀ a, a < 10 → ∀ b, b < 10 →
    a < b → Nat.digitChar a < Nat.digitChar b := by decide

theorem map_digitChar_inj : ∀ (l1 l2 : List Nat),
    (∀ d ∈ l1, d < 10) → (∀ d ∈ l2, d < 10) →
    l1.map Nat.digitChar = l2.map Nat.digitChar → l1 = l2 := by
  intro l1
  induction l1 with
  | nil =>
    intro l2 _ _ h
    cases l2 with
    | nil => rfl
    | cons d t => simp at h
  | cons d1 t1 ih =>
    intro l2 h1 h2 h
    cases l2 with
    | nil => simp at h
    | cons d2 t2 =>
      simp only [List.map_cons, List.cons.injEq] at h
      have hd := digitChar_inj_below d1 (h1 d1 (List.mem_cons_self d1 t1))
        d2 (h2 d2 (List.mem_cons_self d2 t2)) h.1
      have ht := ih t2 (fun d hd' => h1 d (List.mem_cons_of_mem d1 hd'))
        (fun d hd' => h2 d (List.mem_cons_of_mem d2 hd')) h.2
      rw [hd, ht]

/-- Injectivity: `generate_po_number` maps distinct counters to distinct PO
numbers. -/
theorem generate_po_number_injective (m n : Nat)
    (h : generate_po_number m = generate_po_number n) : m = n := by
  have hdata := congrArg String.data h
  rw [generate_po_number_data, generate_po_number_data] at hdata
  have hmap : (pad6 m).map Nat.digitChar = (pad6 n).map Nat.digitChar :=
    List.cons.inj hdata |>.2
  have hpad := map_digitChar_inj (pad6 m) (pad6 n) (pad6_lt_ten m)
    (pad6_lt_ten n) hmap
  have := congrArg valBE hpad
  rwa [valBE_pad6, valBE_pad6] at this

/-- Strictly smaller value means lexicographically smaller digit
characters, for equal-length digit lists. -/
theorem lex_of_valBE_lt : ∀ (l1 l2 : List Nat), l1.length = l2.length →
    (∀ d ∈ l1, d < 10) → (∀ d ∈ l2, d < 10) → valBE l1 < valBE l2 →
    List.Lex (· < ·) (l1.map Nat.digitChar) (l2.map Nat.digitChar) := by
  intro l1
  induction l1 with
  | nil =>
    intro l2 hlen _ _ hv
    cases l2 with
    | nil => exact absurd hv (lt_irrefl 0)
    | cons d t => simp at hlen
  | cons d1 t1 ih =>
    intro l2 hlen h1 h2 hv
    cases l2 with
    | nil => simp at hlen
    | cons d2 t2 =>
      have hlen' : t1.length = t2.length := by simpa using hlen
      have hd1 : d1 < 10 := h1 d1 (List.mem_cons_self d1 t1)
      have hd2 : d2 < 10 := h2 d2 (List.mem_cons_self d2 t2)
      rcases Nat.lt_trichotomy d1 d2 with hlt | heq | hgt
      · exact List.Lex.rel (digitChar_mono_below d1 hd1 d2 hd2 hlt)
      · subst heq
        apply List.Lex.cons
        apply ih t2 hlen' (fun d hd => h1 d (List.mem_cons_of_mem d1 hd))
          (fun d hd => h2 d (List.mem_cons_of_mem d1 hd))
        have hv' : d1 * 10 ^ t1.length + valBE t1 <
            d1 * 10 ^ t2.length + valBE t2 := hv
        rw [hlen'] at hv'
        omega
      · exfalso
        have hb2 : valBE t2 < 10 ^ t2.length :=
          valBE_lt_pow t2 fun d hd => h2 d (List.mem_cons_of_mem d2 hd)
        have hv1 : valBE (d1 :: t1) = d1 * 10 ^ t1.length + valBE t1 := rfl
        have hv2 : valBE (d2 :: t2) = d2 * 10 ^ t2.length + valBE t2 := rfl
        rw [hv1, hv2, hlen'] at hv
        nlinarith [hv, hb2, hgt]

/-- C9: `generate_po_number` gives `"E000001"` at counter 1 and
`"E123456"` at counter 123456 — `"E"` followed by the counter zero-padded
to 6 digits — and, the counter being only ever incremented, the PO
numbers assigned within one process lifetime (counters staying in the
6-digit range) are strictly increasing. -/
theorem C9_generate_po_number_format :
    generate_po_number 1 = "E000001" ∧
    generate_po_number 123456 = "E123456" ∧
    ∀ m n : Nat, m < n → n ≤ 999999 →
      generate_po_number m < generate_po_number n := by
  refine ⟨by decide, by decide, ?_⟩
  intro m n hmn hn
  rw [String.lt_iff_toList_lt]
  show List.Lex (· < ·) (generate_po_number m).data (generate_po_number n).data
  rw [generate_po_number_data, generate_po_number_data]
  apply List.Lex.cons
  apply lex_of_valBE_lt (pad6 m) (pad6 n)
  · rw [pad6_length m (by omega), pad6_length n hn]
  · exact pad6_lt_ten m
  · exact pad6_lt_ten n
  · rw [valBE_pad6, valBE_pad6]
    exact hmn

/-- Witness for C9 at concrete counters: strict increase from counter 1
to counter 2. -/
theorem C9_generate_po_number_format_witness :
    generate_po_number 1 < generate_po_number 2 :=
  C9_generate_po_number_format.2.2 1 2 (by norm_num) (by norm_num)

/-! ## PO uniqueness across a process lifetime -/

/-- Invariant of the process state: the assigned POs are pairwise
distinct, and each comes from a counter value below the current one. -/
def poInv (p : Proc) : Prop :=
  p.assigned.Nodup ∧
  ∀ po ∈ p.assigned, ∃ c, c < p.poCounter ∧ po = generate_po_number c

theorem stepOp_poInv (p : Proc) (op : Op) (h : poInv p) :
    poInv (stepOp p op) := by
  cases op with
  | cancel env idx cust => exact h
  | create env name phone from_addr to_addr dateS startS endS svc notes =>
    obtain ⟨hnd, hrange⟩ := h
    cases hi : env.insertResult with
    | none =>
      have hstep : stepOp p (Op.create env name phone from_addr to_addr dateS
          startS endS svc notes) =
          { sheet := p.sheet, poCounter := p.poCounter,
            assigned := p.assigned } := by
        simp [stepOp, submitNew, create_calendar_event, hi]
      rw [hstep]
      exact ⟨hnd, hrange⟩
    | some eid =>
      have hstep : stepOp p (Op.create env name phone from_addr to_addr dateS
          startS endS svc notes) =
          { sheet := append_booking_to_sheet p.sheet
              [generate_po_number p.poCounter, name, phone, from_addr, to_addr,
               dateS, startS, endS, svc, notes, eid],
            poCounter := p.poCounter + 1,
            assigned := generate_po_number p.poCounter :: p.assigned } := by
        simp [stepOp, submitNew, create_calendar_event, hi]
      rw [hstep]
      constructor
      · rw [List.nodup_cons]
        refine ⟨?_, hnd⟩
        intro hmem
        obtain ⟨c, hc, hcpo⟩ := hrange _ hmem
        have := generate_po_number_injective p.poCounter c hcpo
        omega
      · intro po hpo
        rcases List.mem_cons.mp hpo with rfl | hpo'
        · exact ⟨p.poCounter, by show p.poCounter < p.poCounter + 1; omega, rfl⟩
        · obtain ⟨c, hc, hcpo⟩ := hrange po hpo'
          exact ⟨c, by show c < p.poCounter + 1; omega, hcpo⟩

theorem foldl_stepOp_poInv (ops : List Op) :
    ∀ p : Proc, poInv p → poInv (ops.foldl stepOp p) := by
  induction ops with
  | nil => intro p h; exact h
  | cons op rest ih =>
    intro p h
    exact ih (stepOp p op) (stepOp_poInv p op h)

/-- C7: within a process lifetime — counter seeded at startup as record
count + 1, advanced by 1 on each successful creation, cancellations
blanking rows but never touching the counter — the assigned PO numbers
are pairwise distinct: no PO is ever reused, cancelled or not. -/
theorem C7_po_number_never_reused (sheet0 : List (List String))
    (ops : List Op) : (runOps sheet0 ops).assigned.Nodup := by
  have h : poInv (runOps sheet0 ops) := by
    unfold runOps
    apply foldl_stepOp_poInv
    exact ⟨List.nodup_nil, by simp [initProc]⟩
  exact h.1

/-! ## Lifecycle theorems -/

/-- Writing back the value a position already holds leaves a list
unchanged. -/
theorem set_eq_self_of_getElem? {α : Type} (l : List α) :
    ∀ (n : Nat) (a : α), l[n]? = some a → l.set n a = l := by
  induction l with
  | nil => intro n a h; simp at h
  | cons x t ih =>
    intro n a h
    cases n with
    | zero =>
      obtain rfl : x = a := by simpa using h
      rfl
    | succ n' =>
      simp only [List.getElem?_cons_succ] at h
      simp only [List.set_cons_succ, ih n' a h]

/-- C4: a rebook submit whose insert succeeds overwrites the row at
`rowIndex` in place (columns A-K, no append), keeping the stored PO number
and row index and storing the freshly obtained event id; the old calendar
event's delete is issued before the replacement's insert, and a failed
delete only warns — the insert still proceeds. -/
theorem C4_rebook_overwrites_in_place (env : CalEnv)
    (sheet : List (List String)) (po_counter idx : Nat) (cust : Customer)
    (name phone from_addr to_addr dateS startS endS svc notes : String)
    (newId : String) (out : SubmitOut)
    (hout : out = submitRebook env sheet po_counter idx cust name phone
      from_addr to_addr dateS startS endS svc notes)
    (hins : env.insertResult = some newId) :
    out.raised = false ∧
    out.sheet = sheet.set (idx - 2) [cust.poNo, name, phone, from_addr,
      to_addr, dateS, startS, endS, svc, notes, newId] ∧
    out.sheet.length = sheet.length ∧
    out.poCounter = po_counter ∧
    (∀ v, Eff.sheetAppend v ∉ out.trace) ∧
    (∃ (i j : Nat) (s : String), i < j ∧
      out.trace[i]? = some (Eff.calDelete cust.eventId) ∧
      out.trace[j]? = some (Eff.calInsert s newId)) ∧
    (env.deleteOk cust.eventId = false →
      Eff.warnMsg "Could not delete old event" ∈ out.trace ∧
      ∃ s, Eff.calInsert s newId ∈ out.trace) := by
  subst hout
  by_cases hd : env.deleteOk cust.eventId = true
  · have hstep : submitRebook env sheet po_counter idx cust name phone
        from_addr to_addr dateS startS endS svc notes =
        { sheet := sheet.set (idx - 2) [cust.poNo, name, phone, from_addr,
            to_addr, dateS, startS, endS, svc, notes, newId],
          poCounter := po_counter,
          trace := [Eff.calDelete cust.eventId,
            Eff.calInsert (cust.poNo ++ " – " ++ name ++ " – " ++ svc) newId,
            Eff.sheetUpdate idx [cust.poNo, name, phone, from_addr, to_addr,
              dateS, startS, endS, svc, notes, newId],
            Eff.successMsg "Booking updated."],
          raised := false } := by
      simp [submitRebook, update_calendar_event, create_calendar_event,
        update_booking_in_sheet, hins, hd]
    rw [hstep]
    refine ⟨rfl, rfl, List.length_set sheet _ _, rfl, ?_, ?_, ?_⟩
    · intro v
      simp
    · exact ⟨0, 1, cust.poNo ++ " – " ++ name ++ " – " ++ svc,
        by omega, rfl, rfl⟩
    · intro hfalse
      cases hd.symm.trans hfalse
  · have hd' : env.deleteOk cust.eventId = false := by
      simpa using hd
    have hstep : submitRebook env sheet po_counter idx cust name phone
        from_addr to_addr dateS startS endS svc notes =
        { sheet := sheet.set (idx - 2) [cust.poNo, name, phone, from_addr,
            to_addr, dateS, startS, endS, svc, notes, newId],
          poCounter := po_counter,
          trace := [Eff.calDelete cust.eventId,
            Eff.warnMsg "Could not delete old event",
            Eff.calInsert (cust.poNo ++ " – " ++ name ++ " – " ++ svc) newId,
            Eff.sheetUpdate idx [cust.poNo, name, phone, from_addr, to_addr,
              dateS, startS, endS, svc, notes, newId],
            Eff.successMsg "Booking updated."],
          raised := false } := by
      simp [submitRebook, update_calendar_event, create_calendar_event,
        update_booking_in_sheet, hins, hd']
    rw [hstep]
    refine ⟨rfl, rfl, List.length_set sheet _ _, rfl, ?_, ?_, ?_⟩
    · intro v
      simp
    · exact ⟨0, 2, cust.poNo ++ " – " ++ name ++ " – " ++ svc,
        by omega, rfl, rfl⟩
    · intro _
      exact ⟨by simp, cust.poNo ++ " – " ++ name ++ " – " ++ svc, by simp⟩

/-- Witness for C4 at a concrete rebook (delete failing): the handler does
not raise. -/
theorem C4_rebook_overwrites_in_place_witness :
    (submitRebook ⟨fun _ => false, some "evNew"⟩
      [["E000001", "A", "1", "f", "t", "d", "s", "e", "Svc", "n", "evOld"]]
      7 2 ⟨"E000001", "A", "1", "f", "t", "d", "s", "e", "Svc", "n", "evOld"⟩
      "B" "2" "f2" "t2" "d2" "s2" "e2" "Svc2" "n2").raised = false :=
  (C4_rebook_overwrites_in_place ⟨fun _ => false, some "evNew"⟩
    [["E000001", "A", "1", "f", "t", "d", "s", "e", "Svc", "n", "evOld"]]
    7 2 ⟨"E000001", "A", "1", "f", "t", "d", "s", "e", "Svc", "n", "evOld"⟩
    "B" "2" "f2" "t2" "d2" "s2" "e2" "Svc2" "n2" "evNew" _ rfl rfl).1

/-- C6: if the calendar insert fails during a new-booking or rebook
submit, the handler raises with no record-store write — no row appended,
no row range updated, the sheet exactly as before — and the PO counter is
not advanced. -/
theorem C6_insert_failure_no_record_write (env : CalEnv)
    (sheet : List (List String)) (po_counter idx : Nat) (cust : Customer)
    (po name phone from_addr to_addr dateS startS endS svc notes : String)
    (hins : env.insertResult = none) :
    ((submitNew env sheet po_counter po name phone from_addr to_addr dateS
        startS endS svc notes).sheet = sheet ∧
     (submitNew env sheet po_counter po name phone from_addr to_addr dateS
        startS endS svc notes).poCounter = po_counter ∧
     (submitNew env sheet po_counter po name phone from_addr to_addr dateS
        startS endS svc notes).raised = true ∧
     ∀ e ∈ (submitNew env sheet po_counter po name phone from_addr to_addr
        dateS startS endS svc notes).trace,
       (∀ v, e ≠ Eff.sheetAppend v) ∧ ∀ i v, e ≠ Eff.sheetUpdate i v) ∧
    ((submitRebook env sheet po_counter idx cust name phone from_addr
        to_addr dateS startS endS svc notes).sheet = sheet ∧
     (submitRebook env sheet po_counter idx cust name phone from_addr
        to_addr dateS startS endS svc notes).poCounter = po_counter ∧
     (submitRebook env sheet po_counter idx cust name phone from_addr
        to_addr dateS startS endS svc notes).raised = true ∧
     ∀ e ∈ (submitRebook env sheet po_counter idx cust name phone from_addr
        to_addr dateS startS endS svc notes).trace,
       (∀ v, e ≠ Eff.sheetAppend v) ∧ ∀ i v, e ≠ Eff.sheetUpdate i v) := by
  constructor
  · have hstep : submitNew env sheet po_counter po name phone from_addr
        to_addr dateS startS endS svc notes =
        { sheet := sheet, poCounter := po_counter,
          trace := [Eff.calInsertFail (po ++ " – " ++ name ++ " – " ++ svc)],
          raised := true } := by
      simp [submitNew, create_calendar_event, hins]
    rw [hstep]
    refine ⟨rfl, rfl, rfl, ?_⟩
    intro e he
    obtain rfl : e = Eff.calInsertFail (po ++ " – " ++ name ++ " – " ++ svc) := by
      simpa using he
    exact ⟨fun v => by simp, fun i v => by simp⟩
  · have hstep : submitRebook env sheet po_counter idx cust name phone
        from_addr to_addr dateS startS endS svc notes =
        { sheet := sheet, poCounter := po_counter,
          trace := (if env.deleteOk cust.eventId then
              [Eff.calDelete cust.eventId]
            else [Eff.calDelete cust.eventId,
              Eff.warnMsg "Could not delete old event"]) ++
            [Eff.calInsertFail
              (cust.poNo ++ " – " ++ name ++ " – " ++ svc)],
          raised := true } := by
      simp [submitRebook, update_calendar_event, create_calendar_event, hins]
    rw [hstep]
    refine ⟨rfl, rfl, rfl, ?_⟩
    intro e he
    simp only [List.mem_append] at he
    rcases he with he | he
    · by_cases hd : env.deleteOk cust.eventId = true
      · rw [if_pos hd] at he
        obtain rfl : e = Eff.calDelete cust.eventId := by simpa using he
        exact ⟨fun v => by simp, fun i v => by simp⟩
      · rw [if_neg hd] at he
        rcases List.mem_cons.mp he with rfl | he'
        · exact ⟨fun v => by simp, fun i v => by simp⟩
        · obtain rfl : e = Eff.warnMsg "Could not delete old event" := by
            simpa using he'
          exact ⟨fun v => by simp, fun i v => by simp⟩
    · obtain rfl : e = Eff.calInsertFail
          (cust.poNo ++ " – " ++ name ++ " – " ++ svc) := by simpa using he
      exact ⟨fun v => by simp, fun i v => by simp⟩

/-- Witness for C6 at a concrete failing insert: the sheet is exactly what
it was before the new-booking submit. -/
theorem C6_insert_failure_no_record_write_witness :
    (submitNew ⟨fun _ => true, none⟩ [["r"]] 4 "E000004" "A" "1" "f" "t"
      "d" "s" "e" "Svc" "n").sheet = [["r"]] :=
  (C6_insert_failure_no_record_write ⟨fun _ => true, none⟩ [["r"]] 4 2
    ⟨"", "", "", "", "", "", "", "", "", "", ""⟩ "E000004" "A" "1" "f" "t"
    "d" "s" "e" "Svc" "n" rfl).1.1

/-- C5: a confirmed cancellation blanks the booking's row in place — all
11 columns set to empty strings, the row never removed, every other row
untouched; with a non-empty Event ID the calendar delete is attempted and
a failure surfaces as an error while the row is still blanked; with an
empty Event ID no calendar-store call is made and the row is still
blanked. -/
theorem C5_cancel_blanks_row (env : CalEnv) (sheet : List (List String))
    (idx : Nat) (cust : Customer) (sheet2 : List (List String))
    (tr : List Eff)
    (hs : sheet2 = (cancelConfirm env sheet idx cust).1)
    (htr : tr = (cancelConfirm env sheet idx cust).2) :
    sheet2 = sheet.set (idx - 2) (List.replicate 11 "") ∧
    sheet2.length = sheet.length ∧
    (∀ j, j ≠ idx - 2 → sheet2[j]? = sheet[j]?) ∧
    (cust.eventId ≠ "" → Eff.calDelete cust.eventId ∈ tr ∧
      (env.deleteOk cust.eventId = false →
        Eff.errorMsg "Delete failed" ∈ tr)) ∧
    (cust.eventId = "" → ∀ e, Eff.calDelete e ∉ tr) := by
  subst hs
  subst htr
  have h1 : (cancelConfirm env sheet idx cust).1 =
      sheet.set (idx - 2) (List.replicate 11 "") := rfl
  refine ⟨h1, ?_, ?_, ?_, ?_⟩
  · rw [h1]
    exact List.length_set sheet _ _
  · intro j hj
    rw [h1]
    exact List.getElem?_set_ne (Ne.symm hj)
  · intro hne
    have h2 : (cancelConfirm env sheet idx cust).2 =
        delete_calendar_event env cust.eventId ++
          [Eff.successMsg "Cancelled."] := by
      simp only [cancelConfirm, if_pos hne]
    rw [h2]
    constructor
    · by_cases hd : env.deleteOk cust.eventId = true
      · simp [delete_calendar_event, hd]
      · simp [delete_calendar_event, if_neg hd]
    · intro hdf
      simp [delete_calendar_event, hdf]
  · intro he e
    have hcond : ¬(cust.eventId ≠ "") := fun h => h he
    have h2 : (cancelConfirm env sheet idx cust).2 =
        [Eff.successMsg "Cancelled."] := by
      simp only [cancelConfirm, if_neg hcond, List.nil_append]
    rw [h2]
    simp

/-- Witness for C5 at a concrete cancellation with a failing delete: the
error is surfaced in the trace. -/
theorem C5_cancel_blanks_row_witness :
    Eff.errorMsg "Delete failed" ∈
      (cancelConfirm ⟨fun _ => false, none⟩
        [["E000001", "A", "1", "f", "t", "d", "s", "e", "Svc", "n", "ev1"]]
        2 ⟨"E000001", "A", "1", "f", "t", "d", "s", "e", "Svc", "n", "ev1"⟩).2 :=
  ((C5_cancel_blanks_row ⟨fun _ => false, none⟩
      [["E000001", "A", "1", "f", "t", "d", "s", "e", "Svc", "n", "ev1"]]
      2 ⟨"E000001", "A", "1", "f", "t", "d", "s", "e", "Svc", "n", "ev1"⟩
      _ _ rfl rfl).2.2.2.1 (by decide)).2 rfl

/-- C8: cancelling an already-blanked row (whose record therefore has an
empty Event ID) is idempotent: no calendar-store call, no error message,
and the record store is left exactly as it was. -/
theorem C8_cancel_idempotent (env : CalEnv) (sheet : List (List String))
    (idx : Nat) (hrow : sheet[idx - 2]? = some (List.replicate 11 "")) :
    (cancelConfirm env sheet idx
      (customerOfRow (List.replicate 11 ""))).1 = sheet ∧
    (∀ e, Eff.calDelete e ∉
      (cancelConfirm env sheet idx
        (customerOfRow (List.replicate 11 ""))).2) ∧
    (∀ m, Eff.errorMsg m ∉
      (cancelConfirm env sheet idx
        (customerOfRow (List.replicate 11 ""))).2) := by
  have hev : (customerOfRow (List.replicate 11 "")).eventId = "" := rfl
  have hcond : ¬((customerOfRow (List.replicate 11 "")).eventId ≠ "") :=
    fun h => h hev
  have h2 : (cancelConfirm env sheet idx
      (customerOfRow (List.replicate 11 ""))).2 =
      [Eff.successMsg "Cancelled."] := by
    simp only [cancelConfirm, if_neg hcond, List.nil_append]
  have h1 : (cancelConfirm env sheet idx
      (customerOfRow (List.replicate 11 ""))).1 =
      sheet.set (idx - 2) (List.replicate 11 "") := rfl
  refine ⟨?_, ?_, ?_⟩
  · rw [h1]
    exact set_eq_self_of_getElem? sheet (idx - 2) (List.replicate 11 "") hrow
  · intro e
    rw [h2]
    simp
  · intro m
    rw [h2]
    simp

/-- Witness for C8 on a concrete one-row blanked store: the store is
unchanged. -/
theorem C8_cancel_idempotent_witness :
    (cancelConfirm ⟨fun _ => true, none⟩ [List.replicate 11 ""] 2
      (customerOfRow (List.replicate 11 ""))).1 = [List.replicate 11 ""] :=
  (C8_cancel_idempotent ⟨fun _ => true, none⟩ [List.replicate 11 ""] 2
    (by decide)).1

end CRM
